import Mathlib

/-!
Verification of the hugescm structural-diff core against its specification.

The Go sources are shallowly embedded in Lean:
  * `modules/diffmatchpatch/stringutil.go` — the line-interning codec
    (`intToRune` / `runeToInt`), together with models of the Go standard
    library functions `utf8.DecodeRune` and `utf8.EncodeRune` that the codec
    calls.  Go `uint32`/`rune` values are modelled as `Nat` (all values in
    play are non-negative and far below 2^32, so no wraparound can occur);
    Go panics are modelled as `Except`/`Option` error results.
  * `modules/zeta/object/change.go` — `Change`, `Change.Action`,
    `Change.Files`, `Change.name`, `Changes.Less`, and the pkt-line header
    decoding (`Scanner.readPayloadLen`, `hexDecode`).
  * `pkg/strengthen` — `StrSplitSkipEmpty`.  Go strings are modelled as
    lists of bytes (`List Nat`).
-/

namespace DiffMatchPatch

/-! Constants from stringutil.go. -/

def UNICODE_INVALID_RANGE_START : Nat := 0xD800
def UNICODE_INVALID_RANGE_END : Nat := 0xDFFF
def UNICODE_INVALID_RANGE_DELTA : Nat :=
  UNICODE_INVALID_RANGE_END - UNICODE_INVALID_RANGE_START + 1
def UNICODE_RANGE_MAX : Nat := 0x10FFFF

def ONE_BYTE_BITS : Nat := 7
def TWO_BYTE_BITS : Nat := 11
def THREE_BYTE_BITS : Nat := 16
def FOUR_BYTE_BITS : Nat := 21

/-- Helper for getting a sequence of bits from an integer, from
stringutil.go: `getBits(i, cnt, from) = byte((i >> from) & ((1 << cnt) - 1))`.
Every call site has `cnt ≤ 6`, so the result always fits in a byte and the
Go `byte` conversion is lossless. -/
def getBits (i cnt f : Nat) : Nat :=
  (i >>> f) &&& ((1 <<< cnt) - 1)

/-- The Go constant `utf8.RuneError`. -/
def utf8RuneError : Nat := 0xFFFD

/-- Model of Go `utf8.DecodeRune` restricted to the information the codec
uses: given the byte sequence it returns the decoded rune and the size.
Invalid, truncated, overlong, surrogate or beyond-max sequences yield
`(utf8.RuneError, 1)` (or `(utf8.RuneError, 0)` on empty input), exactly as
Go's decoder does via its `first`/`acceptRanges` tables. -/
def decodeRune : List Nat → Nat × Nat
  | [] => (utf8RuneError, 0)
  | b0 :: rest =>
    if b0 < 0x80 then (b0, 1)
    else if b0 < 0xC2 then (utf8RuneError, 1)
    else if b0 < 0xE0 then
      match rest with
      | b1 :: _ =>
        if 0x80 ≤ b1 ∧ b1 ≤ 0xBF then
          ((b0 % 0x20) * 64 + b1 % 0x40, 2)
        else (utf8RuneError, 1)
      | [] => (utf8RuneError, 1)
    else if b0 < 0xF0 then
      match rest with
      | b1 :: b2 :: _ =>
        let lo := if b0 = 0xE0 then 0xA0 else 0x80
        let hi := if b0 = 0xED then 0x9F else 0xBF
        if lo ≤ b1 ∧ b1 ≤ hi ∧ 0x80 ≤ b2 ∧ b2 ≤ 0xBF then
          ((b0 % 0x10) * 4096 + (b1 % 0x40) * 64 + b2 % 0x40, 3)
        else (utf8RuneError, 1)
      | _ => (utf8RuneError, 1)
    else if b0 < 0xF5 then
      match rest with
      | b1 :: b2 :: b3 :: _ =>
        let lo := if b0 = 0xF0 then 0x90 else 0x80
        let hi := if b0 = 0xF4 then 0x8F else 0xBF
        if lo ≤ b1 ∧ b1 ≤ hi ∧ 0x80 ≤ b2 ∧ b2 ≤ 0xBF ∧ 0x80 ≤ b3 ∧ b3 ≤ 0xBF then
          ((b0 % 8) * 262144 + (b1 % 0x40) * 4096 + (b2 % 0x40) * 64 + b3 % 0x40, 4)
        else (utf8RuneError, 1)
      | _ => (utf8RuneError, 1)
    else (utf8RuneError, 1)

/-- Model of Go `utf8.EncodeRune`, returning the written bytes (the Go size
is the length of the returned list).  Surrogates and values beyond
`utf8.MaxRune` are replaced by `utf8.RuneError` before encoding, mirroring
the fallthrough in the Go source. -/
def encodeRune (r0 : Nat) : List Nat :=
  if r0 < 0x80 then [r0]
  else if r0 < 0x800 then
    [0xC0 ||| (r0 >>> 6), 0x80 ||| (r0 &&& 0x3F)]
  else
    let r := if (0xD800 ≤ r0 ∧ r0 ≤ 0xDFFF) ∨ 0x10FFFF < r0 then utf8RuneError else r0
    if r < 0x10000 then
      [0xE0 ||| (r >>> 12), 0x80 ||| ((r >>> 6) &&& 0x3F), 0x80 ||| (r &&& 0x3F)]
    else
      [0xF0 ||| (r >>> 18), 0x80 ||| ((r >>> 12) &&& 0x3F),
        0x80 ||| ((r >>> 6) &&& 0x3F), 0x80 ||| (r &&& 0x3F)]

/-- The two panic sites of `intToRune`: a failed utf8 self-check decode
(`"Error encoding an int ... with size k"`) and the final out-of-range
panic (`"The integer ... is too large"`). -/
inductive EncodeErr where
  | selfCheck (size : Nat)
  | tooLarge
deriving DecidableEq, Repr

/-- Embedding of `intToRune` from stringutil.go.  Each branch builds the
multi-unit byte form, decodes it back through the utf8 decoder as a
self-check, and panics (here: returns `Except.error`) when the size is
wrong or the decode produced `utf8.RuneError`. -/
def intToRune (i : Nat) : Except EncodeErr Nat :=
  if i < 1 <<< ONE_BYTE_BITS then .ok i
  else if i < 1 <<< TWO_BYTE_BITS then
    let p := decodeRune [0xC0 ||| getBits i 5 6, 0x80 ||| getBits i 6 0]
    if p.2 ≠ 2 ∨ p.1 = utf8RuneError then .error (.selfCheck 2) else .ok p.1
  else if i < (1 <<< THREE_BYTE_BITS) - UNICODE_INVALID_RANGE_DELTA - 3 then
    let j := if i ≥ UNICODE_INVALID_RANGE_START then i + UNICODE_INVALID_RANGE_DELTA else i
    let p := decodeRune [0xE0 ||| getBits j 4 12, 0x80 ||| getBits j 6 6, 0x80 ||| getBits j 6 0]
    if p.2 ≠ 3 ∨ p.1 = utf8RuneError then .error (.selfCheck 3) else .ok p.1
  else if i < (1 <<< FOUR_BYTE_BITS) - UNICODE_INVALID_RANGE_DELTA - 3 then
    let j := i + UNICODE_INVALID_RANGE_DELTA + 3
    let p := decodeRune [0xF0 ||| getBits j 3 18, 0x80 ||| getBits j 6 12,
      0x80 ||| getBits j 6 6, 0x80 ||| getBits j 6 0]
    if p.2 ≠ 4 ∨ p.1 = utf8RuneError then .error (.selfCheck 4) else .ok p.1
  else .error .tooLarge

/-- Embedding of `runeToInt` from stringutil.go.  The rune argument is the
(non-negative) scalar value; `none` models the final `panic` for an
unexpected encode size. -/
def runeToInt (r : Nat) : Option Nat :=
  if r < 1 <<< ONE_BYTE_BITS then some r
  else
    let bytes := encodeRune r
    let size := bytes.length
    if size = 2 then
      some (((bytes.getD 0 0 &&& 0b11111) <<< 6) ||| (bytes.getD 1 0 &&& 0b111111))
    else if size = 3 then
      let result := ((bytes.getD 0 0 &&& 0b1111) <<< 12) |||
        ((bytes.getD 1 0 &&& 0b111111) <<< 6) ||| (bytes.getD 2 0 &&& 0b111111)
      if result ≥ UNICODE_INVALID_RANGE_END then
        some (result - UNICODE_INVALID_RANGE_DELTA)
      else some result
    else if size = 4 then
      let result := ((bytes.getD 0 0 &&& 0b111) <<< 18) |||
        ((bytes.getD 1 0 &&& 0b111111) <<< 12) |||
        ((bytes.getD 2 0 &&& 0b111111) <<< 6) ||| (bytes.getD 3 0 &&& 0b111111)
      some (result - UNICODE_INVALID_RANGE_DELTA - 3)
    else none

/-! Bridging lemmas: the bitwise operations used by the codec, rewritten
into division/remainder arithmetic so that `omega` can reason about them. -/

theorem getBits_eq (i cnt f : Nat) : getBits i cnt f = (i / 2 ^ f) % 2 ^ cnt := by
  unfold getBits
  rw [Nat.shiftRight_eq_div_pow, Nat.shiftLeft_eq, Nat.one_mul,
    Nat.and_pow_two_sub_one_eq_mod]

theorem lor_eq_add (k a b : Nat) (h : b < 2 ^ k) : (a * 2 ^ k) ||| b = a * 2 ^ k + b := by
  rw [Nat.mul_comm]
  exact (Nat.mul_add_lt_is_or h a).symm

theorem lor192 (x : Nat) (h : x < 64) : 192 ||| x = 192 + x := by
  have h2 : (3 * 2 ^ 6) ||| x = 3 * 2 ^ 6 + x := lor_eq_add 6 3 x (by omega)
  norm_num at h2
  exact h2

theorem lor128 (x : Nat) (h : x < 128) : 128 ||| x = 128 + x := by
  have h2 : (1 * 2 ^ 7) ||| x = 1 * 2 ^ 7 + x := lor_eq_add 7 1 x (by omega)
  norm_num at h2
  exact h2

theorem lor224 (x : Nat) (h : x < 32) : 224 ||| x = 224 + x := by
  have h2 : (7 * 2 ^ 5) ||| x = 7 * 2 ^ 5 + x := lor_eq_add 5 7 x (by omega)
  norm_num at h2
  exact h2

theorem lor240 (x : Nat) (h : x < 16) : 240 ||| x = 240 + x := by
  have h2 : (15 * 2 ^ 4) ||| x = 15 * 2 ^ 4 + x := lor_eq_add 4 15 x (by omega)
  norm_num at h2
  exact h2

theorem and31 (x : Nat) : x &&& 31 = x % 32 := by
  have h := Nat.and_pow_two_sub_one_eq_mod x 5
  norm_num at h
  exact h

theorem and63 (x : Nat) : x &&& 63 = x % 64 := by
  have h := Nat.and_pow_two_sub_one_eq_mod x 6
  norm_num at h
  exact h

theorem and15 (x : Nat) : x &&& 15 = x % 16 := by
  have h := Nat.and_pow_two_sub_one_eq_mod x 4
  norm_num at h
  exact h

theorem and7 (x : Nat) : x &&& 7 = x % 8 := by
  have h := Nat.and_pow_two_sub_one_eq_mod x 3
  norm_num at h
  exact h

theorem shl6 (x : Nat) : x <<< 6 = x * 64 := by
  rw [Nat.shiftLeft_eq]

theorem shl12 (x : Nat) : x <<< 12 = x * 4096 := by
  rw [Nat.shiftLeft_eq]

theorem shl18 (x : Nat) : x <<< 18 = x * 262144 := by
  rw [Nat.shiftLeft_eq]

theorem shr_eq (x k : Nat) : x >>> k = x / 2 ^ k := Nat.shiftRight_eq_div_pow x k

/-! Constant folding for the tier guards of `intToRune`. -/

theorem c128 : 1 <<< ONE_BYTE_BITS = 128 := by decide

theorem c2048 : 1 <<< TWO_BYTE_BITS = 2048 := by decide

theorem c63485 : 1 <<< THREE_BYTE_BITS - UNICODE_INVALID_RANGE_DELTA - 3 = 63485 := by decide

theorem c2095101 : 1 <<< FOUR_BYTE_BITS - UNICODE_INVALID_RANGE_DELTA - 3 = 2095101 := by decide

theorem cDelta : UNICODE_INVALID_RANGE_DELTA = 2048 := by decide

theorem cStart : UNICODE_INVALID_RANGE_START = 55296 := by decide

/-! Evaluation lemmas for `decodeRune` on the byte shapes produced by the
codec, with the Go `acceptRanges` conditions as hypotheses. -/

theorem decodeRune_two (b0 b1 : Nat) (h0 : 0xC2 ≤ b0) (h0' : b0 ≤ 0xDF)
    (h1 : 0x80 ≤ b1) (h1' : b1 ≤ 0xBF) :
    decodeRune [b0, b1] = ((b0 % 32) * 64 + b1 % 64, 2) := by
  simp only [decodeRune]
  rw [if_neg (show ¬ b0 < 0x80 by omega), if_neg (show ¬ b0 < 0xC2 by omega),
    if_pos (show b0 < 0xE0 by omega), if_pos (show 0x80 ≤ b1 ∧ b1 ≤ 0xBF by omega)]

theorem decodeRune_three (b0 b1 b2 : Nat) (h0 : 0xE0 ≤ b0) (h0' : b0 ≤ 0xEF)
    (h1 : 0x80 ≤ b1) (h1' : b1 ≤ 0xBF)
    (hE0 : b0 = 0xE0 → 0xA0 ≤ b1) (hED : b0 = 0xED → b1 ≤ 0x9F)
    (h2 : 0x80 ≤ b2) (h2' : b2 ≤ 0xBF) :
    decodeRune [b0, b1, b2] = ((b0 % 16) * 4096 + (b1 % 64) * 64 + b2 % 64, 3) := by
  have hcond : (if b0 = 0xE0 then 0xA0 else 0x80) ≤ b1 ∧
      b1 ≤ (if b0 = 0xED then 0x9F else 0xBF) ∧ 0x80 ≤ b2 ∧ b2 ≤ 0xBF := by
    refine ⟨?_, ?_, h2, h2'⟩ <;> split_ifs with h
    · exact hE0 h
    · exact h1
    · exact hED h
    · exact h1'
  simp only [decodeRune]
  rw [if_neg (show ¬ b0 < 0x80 by omega), if_neg (show ¬ b0 < 0xC2 by omega),
    if_neg (show ¬ b0 < 0xE0 by omega), if_pos (show b0 < 0xF0 by omega),
    if_pos hcond]

theorem decodeRune_four (b0 b1 b2 b3 : Nat) (h0 : 0xF0 ≤ b0) (h0' : b0 ≤ 0xF4)
    (h1 : 0x80 ≤ b1) (h1' : b1 ≤ 0xBF)
    (hF0 : b0 = 0xF0 → 0x90 ≤ b1) (hF4 : b0 = 0xF4 → b1 ≤ 0x8F)
    (h2 : 0x80 ≤ b2) (h2' : b2 ≤ 0xBF) (h3 : 0x80 ≤ b3) (h3' : b3 ≤ 0xBF) :
    decodeRune [b0, b1, b2, b3] =
      ((b0 % 8) * 262144 + (b1 % 64) * 4096 + (b2 % 64) * 64 + b3 % 64, 4) := by
  have hcond : (if b0 = 0xF0 then 0x90 else 0x80) ≤ b1 ∧
      b1 ≤ (if b0 = 0xF4 then 0x8F else 0xBF) ∧ 0x80 ≤ b2 ∧ b2 ≤ 0xBF ∧
      0x80 ≤ b3 ∧ b3 ≤ 0xBF := by
    refine ⟨?_, ?_, h2, h2', h3, h3'⟩ <;> split_ifs with h
    · exact hF0 h
    · exact h1
    · exact hF4 h
    · exact h1'
  simp only [decodeRune]
  rw [if_neg (show ¬ b0 < 0x80 by omega), if_neg (show ¬ b0 < 0xC2 by omega),
    if_neg (show ¬ b0 < 0xE0 by omega), if_neg (show ¬ b0 < 0xF0 by omega),
    if_pos (show b0 < 0xF5 by omega), if_pos hcond]

theorem decodeRune_four_hi (b0 b1 b2 b3 : Nat) (h : 0xF5 ≤ b0) :
    decodeRune [b0, b1, b2, b3] = (utf8RuneError, 1) := by
  simp only [decodeRune]
  rw [if_neg (show ¬ b0 < 0x80 by omega), if_neg (show ¬ b0 < 0xC2 by omega),
    if_neg (show ¬ b0 < 0xE0 by omega), if_neg (show ¬ b0 < 0xF0 by omega),
    if_neg (show ¬ b0 < 0xF5 by omega)]

theorem decodeRune_four_badb1 (b0 b1 b2 b3 : Nat) (h0 : 0xF0 ≤ b0) (h0' : b0 ≤ 0xF4)
    (hbad : b0 = 0xF4 ∧ 0x8F < b1) :
    decodeRune [b0, b1, b2, b3] = (utf8RuneError, 1) := by
  simp only [decodeRune]
  rw [if_neg (show ¬ b0 < 0x80 by omega), if_neg (show ¬ b0 < 0xC2 by omega),
    if_neg (show ¬ b0 < 0xE0 by omega), if_neg (show ¬ b0 < 0xF0 by omega),
    if_pos (show b0 < 0xF5 by omega),
    if_neg (show ¬ ((if b0 = 0xF0 then 0x90 else 0x80) ≤ b1 ∧
      b1 ≤ (if b0 = 0xF4 then 0x8F else 0xBF) ∧ 0x80 ≤ b2 ∧ b2 ≤ 0xBF ∧
      0x80 ≤ b3 ∧ b3 ≤ 0xBF) by
        rw [if_pos hbad.1]
        omega)]

/-! Byte-shape normalization for the lists fed to `decodeRune`. -/

theorem bytes2_eq (i : Nat) :
    [0xC0 ||| getBits i 5 6, 0x80 ||| getBits i 6 0] =
      [192 + i / 64 % 32, 128 + i % 64] := by
  rw [getBits_eq, getBits_eq]
  norm_num
  rw [lor192 _ (by omega), lor128 _ (by omega)]
  simp

theorem bytes3_eq (j : Nat) :
    [0xE0 ||| getBits j 4 12, 0x80 ||| getBits j 6 6, 0x80 ||| getBits j 6 0] =
      [224 + j / 4096 % 16, 128 + j / 64 % 64, 128 + j % 64] := by
  rw [getBits_eq, getBits_eq, getBits_eq]
  norm_num
  rw [lor224 _ (by omega), lor128 _ (by omega), lor128 _ (by omega)]
  simp

theorem bytes4_eq (j : Nat) :
    [0xF0 ||| getBits j 3 18, 0x80 ||| getBits j 6 12,
      0x80 ||| getBits j 6 6, 0x80 ||| getBits j 6 0] =
      [240 + j / 262144 % 8, 128 + j / 4096 % 64, 128 + j / 64 % 64, 128 + j % 64] := by
  rw [getBits_eq, getBits_eq, getBits_eq, getBits_eq]
  norm_num
  rw [lor240 _ (by omega), lor128 _ (by omega), lor128 _ (by omega), lor128 _ (by omega)]
  simp

/-! Closed forms for `intToRune`, one per tier of the encoding. -/

theorem intToRune_tier1 (i : Nat) (h : i < 128) : intToRune i = .ok i := by
  unfold intToRune
  rw [c128, if_pos (show i < 128 from h)]

theorem intToRune_tier2 (i : Nat) (h1 : 128 ≤ i) (h2 : i < 2048) :
    intToRune i = .ok i := by
  unfold intToRune
  rw [c128, c2048, if_neg (show ¬ i < 128 by omega), if_pos (show i < 2048 from h2)]
  rw [bytes2_eq, decodeRune_two _ _ (by omega) (by omega) (by omega) (by omega)]
  rw [if_neg (show ¬ ((((192 + i / 64 % 32) % 32) * 64 + (128 + i % 64) % 64, 2).2 ≠ 2 ∨
      (((192 + i / 64 % 32) % 32) * 64 + (128 + i % 64) % 64, 2).1 = utf8RuneError) by
    simp only [utf8RuneError]
    omega)]
  simp only [Except.ok.injEq]
  omega

theorem intToRune_tier3 (i : Nat) (h1 : 2048 ≤ i) (h2 : i < 63485) :
    intToRune i = .ok (if i < 55296 then i else i + 2048) := by
  unfold intToRune
  simp only [ONE_BYTE_BITS, TWO_BYTE_BITS, THREE_BYTE_BITS, FOUR_BYTE_BITS,
    UNICODE_INVALID_RANGE_DELTA, UNICODE_INVALID_RANGE_END,
    UNICODE_INVALID_RANGE_START, Nat.shiftLeft_eq]
  norm_num
  rw [if_neg (show ¬ i < 128 by omega), if_neg (show ¬ i < 2048 by omega),
    if_pos (show i < 63485 from h2)]
  by_cases hs : 55296 ≤ i
  · rw [if_pos hs, if_neg (show ¬ i < 55296 by omega)]
    rw [bytes3_eq, decodeRune_three _ _ _ (by omega) (by omega) (by omega) (by omega)
      (by intro hb; omega) (by intro hb; omega) (by omega) (by omega)]
    rw [if_neg (show ¬ ((((224 + (i + 2048) / 4096 % 16) % 16) * 4096 +
        ((128 + (i + 2048) / 64 % 64) % 64) * 64 + (128 + (i + 2048) % 64) % 64, 3).2 ≠ 3 ∨
        (((224 + (i + 2048) / 4096 % 16) % 16) * 4096 +
        ((128 + (i + 2048) / 64 % 64) % 64) * 64 + (128 + (i + 2048) % 64) % 64, 3).1 =
          utf8RuneError) by
      simp only [utf8RuneError]
      omega)]
    simp only [Except.ok.injEq]
    omega
  · rw [if_neg hs, if_pos (show i < 55296 by omega)]
    rw [bytes3_eq, decodeRune_three _ _ _ (by omega) (by omega) (by omega) (by omega)
      (by intro hb; omega) (by intro hb; omega) (by omega) (by omega)]
    rw [if_neg (show ¬ ((((224 + i / 4096 % 16) % 16) * 4096 +
        ((128 + i / 64 % 64) % 64) * 64 + (128 + i % 64) % 64, 3).2 ≠ 3 ∨
        (((224 + i / 4096 % 16) % 16) * 4096 +
        ((128 + i / 64 % 64) % 64) * 64 + (128 + i % 64) % 64, 3).1 = utf8RuneError) by
      simp only [utf8RuneError]
      omega)]
    simp only [Except.ok.injEq]
    omega

theorem intToRune_tier4 (i : Nat) (h1 : 63485 ≤ i) (h2 : i ≤ 1112060) :
    intToRune i = .ok (i + 2051) := by
  unfold intToRune
  simp only [ONE_BYTE_BITS, TWO_BYTE_BITS, THREE_BYTE_BITS, FOUR_BYTE_BITS,
    UNICODE_INVALID_RANGE_DELTA, UNICODE_INVALID_RANGE_END,
    UNICODE_INVALID_RANGE_START, Nat.shiftLeft_eq]
  norm_num
  rw [if_neg (show ¬ i < 128 by omega), if_neg (show ¬ i < 2048 by omega),
    if_neg (show ¬ i < 63485 by omega), if_pos (show i < 2095101 by omega)]
  rw [bytes4_eq, decodeRune_four _ _ _ _ (by omega) (by omega) (by omega) (by omega)
    (by intro hb; omega) (by intro hb; omega) (by omega) (by omega) (by omega) (by omega)]
  rw [if_neg (show ¬ ((((240 + (i + 2048 + 3) / 262144 % 8) % 8) * 262144 +
      ((128 + (i + 2048 + 3) / 4096 % 64) % 64) * 4096 +
      ((128 + (i + 2048 + 3) / 64 % 64) % 64) * 64 + (128 + (i + 2048 + 3) % 64) % 64, 4).2 ≠ 4 ∨
      (((240 + (i + 2048 + 3) / 262144 % 8) % 8) * 262144 +
      ((128 + (i + 2048 + 3) / 4096 % 64) % 64) * 4096 +
      ((128 + (i + 2048 + 3) / 64 % 64) % 64) * 64 + (128 + (i + 2048 + 3) % 64) % 64, 4).1 =
        utf8RuneError) by
    simp only [utf8RuneError]
    omega)]
  simp only [Except.ok.injEq]
  omega

theorem intToRune_tier4_selfCheckFail (i : Nat) (h1 : 1112061 ≤ i) (h2 : i < 2095101) :
    intToRune i = .error (.selfCheck 4) := by
  unfold intToRune
  simp only [ONE_BYTE_BITS, TWO_BYTE_BITS, THREE_BYTE_BITS, FOUR_BYTE_BITS,
    UNICODE_INVALID_RANGE_DELTA, UNICODE_INVALID_RANGE_END,
    UNICODE_INVALID_RANGE_START, Nat.shiftLeft_eq]
  norm_num
  rw [if_neg (show ¬ i < 128 by omega), if_neg (show ¬ i < 2048 by omega),
    if_neg (show ¬ i < 63485 by omega), if_pos (show i < 2095101 from h2)]
  rw [bytes4_eq]
  by_cases hw : (i + 2048 + 3) / 262144 % 8 ≥ 5
  · rw [decodeRune_four_hi _ _ _ _ (by omega)]
    rw [if_pos (show (utf8RuneError, 1).2 ≠ 4 ∨ (utf8RuneError, 1).1 = utf8RuneError by
      simp only [utf8RuneError]
      omega)]
  · rw [decodeRune_four_badb1 _ _ _ _ (by omega) (by omega) (by omega)]
    rw [if_pos (show (utf8RuneError, 1).2 ≠ 4 ∨ (utf8RuneError, 1).1 = utf8RuneError by
      simp only [utf8RuneError]
      omega)]

theorem intToRune_tooLarge (i : Nat) (h : 2095101 ≤ i) :
    intToRune i = .error .tooLarge := by
  unfold intToRune
  simp only [ONE_BYTE_BITS, TWO_BYTE_BITS, THREE_BYTE_BITS, FOUR_BYTE_BITS,
    UNICODE_INVALID_RANGE_DELTA, UNICODE_INVALID_RANGE_END,
    UNICODE_INVALID_RANGE_START, Nat.shiftLeft_eq]
  norm_num
  rw [if_neg (show ¬ i < 128 by omega), if_neg (show ¬ i < 2048 by omega),
    if_neg (show ¬ i < 63485 by omega), if_neg (show ¬ i < 2095101 by omega)]

/-! Closed forms for `encodeRune` and `runeToInt`. -/

theorem encodeRune_two (r : Nat) (h1 : 0x80 ≤ r) (h2 : r < 0x800) :
    encodeRune r = [192 + r / 64, 128 + r % 64] := by
  unfold encodeRune
  rw [if_neg (show ¬ r < 0x80 by omega), if_pos (show r < 0x800 from h2)]
  rw [Nat.shiftRight_eq_div_pow, Nat.and_pow_two_sub_one_eq_mod r 6]
  norm_num
  rw [lor192 _ (by omega), lor128 _ (by omega)]
  simp

theorem encodeRune_three (r : Nat) (h1 : 0x800 ≤ r) (hs : r < 0xD800 ∨ 0xDFFF < r)
    (h2 : r < 0x10000) :
    encodeRune r = [224 + r / 4096, 128 + r / 64 % 64, 128 + r % 64] := by
  unfold encodeRune
  rw [if_neg (show ¬ r < 0x80 by omega), if_neg (show ¬ r < 0x800 by omega),
    if_neg (show ¬ ((0xD800 ≤ r ∧ r ≤ 0xDFFF) ∨ 0x10FFFF < r) by omega),
    if_pos (show r < 0x10000 from h2)]
  rw [Nat.shiftRight_eq_div_pow, Nat.shiftRight_eq_div_pow,
    Nat.and_pow_two_sub_one_eq_mod r 6, Nat.and_pow_two_sub_one_eq_mod (r / 2 ^ 6) 6]
  norm_num
  rw [lor224 _ (by omega), lor128 _ (by omega), lor128 _ (by omega)]
  simp

theorem encodeRune_four (r : Nat) (h1 : 0x10000 ≤ r) (h2 : r ≤ 0x10FFFF) :
    encodeRune r = [240 + r / 262144, 128 + r / 4096 % 64, 128 + r / 64 % 64, 128 + r % 64] := by
  unfold encodeRune
  rw [if_neg (show ¬ r < 0x80 by omega), if_neg (show ¬ r < 0x800 by omega),
    if_neg (show ¬ ((0xD800 ≤ r ∧ r ≤ 0xDFFF) ∨ 0x10FFFF < r) by omega),
    if_neg (show ¬ r < 0x10000 by omega)]
  rw [Nat.shiftRight_eq_div_pow, Nat.shiftRight_eq_div_pow, Nat.shiftRight_eq_div_pow,
    Nat.and_pow_two_sub_one_eq_mod r 6, Nat.and_pow_two_sub_one_eq_mod (r / 2 ^ 6) 6,
    Nat.and_pow_two_sub_one_eq_mod (r / 2 ^ 12) 6]
  norm_num
  rw [lor240 _ (by omega), lor128 _ (by omega), lor128 _ (by omega), lor128 _ (by omega)]
  simp

theorem lorMul64 (a b : Nat) (h : b < 64) : a * 64 ||| b = a * 64 + b := by
  have h2 := lor_eq_add 6 a b (by omega)
  norm_num at h2
  exact h2

theorem lorMul4096 (a b : Nat) (h : b < 4096) : a * 4096 ||| b = a * 4096 + b := by
  have h2 := lor_eq_add 12 a b (by omega)
  norm_num at h2
  exact h2

theorem lorMul262144 (a b : Nat) (h : b < 262144) : a * 262144 ||| b = a * 262144 + b := by
  have h2 := lor_eq_add 18 a b (by omega)
  norm_num at h2
  exact h2

theorem three_compose (x y z : Nat) (hy : y < 64) (hz : z < 64) :
    x * 4096 ||| y * 64 ||| z = x * 4096 + y * 64 + z := by
  rw [lorMul4096 x (y * 64) (by omega), show x * 4096 + y * 64 = (x * 64 + y) * 64 by ring,
    lorMul64 _ z hz]

theorem four_compose (w x y z : Nat) (hx : x < 64) (hy : y < 64) (hz : z < 64) :
    w * 262144 ||| x * 4096 ||| y * 64 ||| z = w * 262144 + x * 4096 + y * 64 + z := by
  rw [lorMul262144 w (x * 4096) (by omega),
    show w * 262144 + x * 4096 = (w * 64 + x) * 4096 by ring,
    lorMul4096 _ (y * 64) (by omega),
    show (w * 64 + x) * 4096 + y * 64 = ((w * 64 + x) * 64 + y) * 64 by ring,
    lorMul64 _ z hz]

theorem runeToInt_tier1 (r : Nat) (h : r < 128) : runeToInt r = some r := by
  unfold runeToInt
  rw [c128, if_pos (show r < 128 from h)]

theorem runeToInt_tier2 (r : Nat) (h1 : 128 ≤ r) (h2 : r < 2048) :
    runeToInt r = some r := by
  unfold runeToInt
  rw [c128, if_neg (show ¬ r < 128 by omega), encodeRune_two r (by omega) (by omega)]
  simp only [List.length_cons, List.length_nil, List.getD, List.getElem?_cons_zero,
    List.getElem?_cons_succ, Option.getD_some]
  norm_num
  rw [and31 _, and63 _, shl6 _]
  rw [lorMul64 ((192 + r / 64) % 32) ((128 + r % 64) % 64) (by omega)]
  omega

theorem runeToInt_tier3 (r : Nat) (h1 : 2048 ≤ r) (hs : r < 0xD800 ∨ 0xDFFF < r)
    (h2 : r < 65536) :
    runeToInt r = some (if r ≥ 0xDFFF then r - 2048 else r) := by
  unfold runeToInt
  rw [c128, if_neg (show ¬ r < 128 by omega), encodeRune_three r (by omega) hs (by omega)]
  simp only [List.length_cons, List.length_nil, List.getD, List.getElem?_cons_zero,
    List.getElem?_cons_succ, Option.getD_some]
  norm_num [UNICODE_INVALID_RANGE_END, UNICODE_INVALID_RANGE_DELTA,
    UNICODE_INVALID_RANGE_START]
  rw [and15 _, and63 _, and63 _, shl12 _, shl6 _]
  rw [three_compose ((224 + r / 4096) % 16) ((128 + r / 64 % 64) % 64) ((128 + r % 64) % 64)
    (by omega) (by omega)]
  by_cases hr : 57343 ≤ r
  · rw [if_pos (show 57343 ≤ (224 + r / 4096) % 16 * 4096 + (128 + r / 64 % 64) % 64 * 64 +
        (128 + r % 64) % 64 by omega), if_pos (show r ≥ 57343 by omega)]
    simp only [Option.some.injEq]
    omega
  · rw [if_neg (show ¬ 57343 ≤ (224 + r / 4096) % 16 * 4096 + (128 + r / 64 % 64) % 64 * 64 +
        (128 + r % 64) % 64 by omega), if_neg (show ¬ r ≥ 57343 by omega)]
    simp only [Option.some.injEq]
    omega

theorem runeToInt_tier4 (r : Nat) (h1 : 65536 ≤ r) (h2 : r ≤ 0x10FFFF) :
    runeToInt r = some (r - 2051) := by
  unfold runeToInt
  rw [c128, if_neg (show ¬ r < 128 by omega), encodeRune_four r (by omega) (by omega)]
  simp only [List.length_cons, List.length_nil, List.getD, List.getElem?_cons_zero,
    List.getElem?_cons_succ, Option.getD_some]
  norm_num [UNICODE_INVALID_RANGE_DELTA, UNICODE_INVALID_RANGE_END,
    UNICODE_INVALID_RANGE_START]
  rw [and7 _, and63 _, and63 _, and63 _, shl18 _, shl12 _, shl6 _]
  rw [four_compose ((240 + r / 262144) % 8) ((128 + r / 4096 % 64) % 64)
    ((128 + r / 64 % 64) % 64) ((128 + r % 64) % 64) (by omega) (by omega) (by omega)]
  omega

/-- Shape of every successful encode: the produced scalar is the input
shifted past the reserved ranges, and inputs above 1112060 never succeed. -/
theorem intToRune_shape (i r : Nat) (h : intToRune i = .ok r) :
    (i < 55296 ∧ r = i) ∨ (55296 ≤ i ∧ i < 63485 ∧ r = i + 2048) ∨
      (63485 ≤ i ∧ i ≤ 1112060 ∧ r = i + 2051) := by
  rcases Nat.lt_or_ge i 128 with h1 | h1
  · rw [intToRune_tier1 i h1] at h
    simp only [Except.ok.injEq] at h
    omega
  rcases Nat.lt_or_ge i 2048 with h2 | h2
  · rw [intToRune_tier2 i h1 h2] at h
    simp only [Except.ok.injEq] at h
    omega
  rcases Nat.lt_or_ge i 63485 with h3 | h3
  · rw [intToRune_tier3 i h2 h3] at h
    simp only [Except.ok.injEq] at h
    rcases Nat.lt_or_ge i 55296 with h4 | h4
    · rw [if_pos h4] at h
      omega
    · rw [if_neg (by omega)] at h
      omega
  rcases Nat.lt_or_ge 1112060 i with h4 | h4
  · rcases Nat.lt_or_ge i 2095101 with h5 | h5
    · rw [intToRune_tier4_selfCheckFail i (by omega) h5] at h
      simp at h
    · rw [intToRune_tooLarge i h5] at h
      simp at h
  · rw [intToRune_tier4 i h3 h4] at h
    simp only [Except.ok.injEq] at h
    omega

/-- Shared decode-after-encode argument: any scalar produced by `intToRune`
decodes back to the original integer through `runeToInt`. -/
theorem roundTrip_aux (i r : Nat) (h : intToRune i = .ok r) :
    runeToInt r = some i := by
  rcases intToRune_shape i r h with ⟨hi, hr⟩ | ⟨hi, hi2, hr⟩ | ⟨hi, hi2, hr⟩
  · rw [hr]
    rcases Nat.lt_or_ge i 128 with h1 | h1
    · exact runeToInt_tier1 i h1
    rcases Nat.lt_or_ge i 2048 with h2 | h2
    · exact runeToInt_tier2 i h1 h2
    · rw [runeToInt_tier3 i h2 (by omega) (by omega), if_neg (by omega)]
  · rw [hr]
    rw [runeToInt_tier3 (i + 2048) (by omega) (by omega) (by omega), if_pos (by omega)]
    simp only [Option.some.injEq]
    omega
  · rw [hr]
    rw [runeToInt_tier4 (i + 2051) (by omega) (by omega)]
    simp only [Option.some.injEq]
    omega

/-- C1: for every integer in the codec's valid encoding domain (the inputs
on which `intToRune` produces a scalar rather than panicking), decoding the
scalar produced by encoding `i` returns exactly `i`:
`runeToInt (intToRune i) = i`. -/
theorem c1_decode_encode_roundTrip (i r : Nat) (h : intToRune i = .ok r) :
    runeToInt r = some i :=
  roundTrip_aux i r h

theorem c1_decode_encode_roundTrip_witness :
    intToRune 70000 = .ok 72051 ∧ runeToInt 72051 = some 70000 :=
  ⟨rfl, c1_decode_encode_roundTrip 70000 72051 rfl⟩

/-- C9: every scalar in the image of `intToRune` is reproduced exactly by
re-encoding its decoded integer: `intToRune (runeToInt r) = r` for every
`r` produced by the encoder. -/
theorem c9_encode_decode_roundTrip (i r : Nat) (h : intToRune i = .ok r) :
    ∃ n, runeToInt r = some n ∧ intToRune n = .ok r :=
  ⟨i, roundTrip_aux i r h, h⟩

theorem c9_encode_decode_roundTrip_witness :
    ∃ n, runeToInt 72051 = some n ∧ intToRune n = .ok 72051 :=
  c9_encode_decode_roundTrip 70000 72051 rfl

/-- C5: no scalar produced by `intToRune` lies in the reserved surrogate
range `[0xD800, 0xDFFF]`, and none equals one of the three excluded top
values of the raw 16-bit tier (0xFFFD, 0xFFFE, 0xFFFF). -/
theorem c5_no_reserved_scalars (i r : Nat) (h : intToRune i = .ok r) :
    (r < 0xD800 ∨ 0xDFFF < r) ∧ r ≠ 0xFFFD ∧ r ≠ 0xFFFE ∧ r ≠ 0xFFFF := by
  rcases intToRune_shape i r h with ⟨hi, hr⟩ | ⟨hi, hi2, hr⟩ | ⟨hi, hi2, hr⟩ <;> omega

theorem c5_no_reserved_scalars_witness :
    (65532 < 0xD800 ∨ 0xDFFF < 65532) ∧ 65532 ≠ 0xFFFD ∧ 65532 ≠ 0xFFFE ∧ 65532 ≠ 0xFFFF :=
  c5_no_reserved_scalars 63484 65532 rfl

/-- C6: the tier boundaries of the encoder are exact.  127 encodes through
the single-unit identity form and 128 through the two-unit form; the
analogous switches happen exactly at 2^11 = 2048 (two to three units) and
at 2^16 − 2048 − 3 = 63485 (three to four units).  The number of encoding
units of the produced scalar is the length of its utf8 byte form. -/
theorem c6_tier_boundaries :
    (intToRune 127 = .ok 127 ∧ (encodeRune 127).length = 1) ∧
    (intToRune 128 = .ok 128 ∧ (encodeRune 128).length = 2) ∧
    (intToRune 2047 = .ok 2047 ∧ (encodeRune 2047).length = 2) ∧
    (intToRune 2048 = .ok 2048 ∧ (encodeRune 2048).length = 3) ∧
    (intToRune 63484 = .ok 65532 ∧ (encodeRune 65532).length = 3) ∧
    (intToRune 63485 = .ok 65536 ∧ (encodeRune 65536).length = 4) :=
  ⟨⟨rfl, rfl⟩, ⟨rfl, rfl⟩, ⟨rfl, rfl⟩, ⟨rfl, rfl⟩, ⟨rfl, rfl⟩, ⟨rfl, rfl⟩⟩

/-- C3, counterexample: 1112061 lies inside the claimed tier-4 raw range
`[63485, 2095101)`, yet `intToRune` does not succeed there — the 4-unit
byte form fails the utf8 decode self-check (the scalar would exceed the
utf8 maximum 0x10FFFF), so the code panics. -/
theorem c3_counterexample :
    63485 ≤ 1112061 ∧ 1112061 < 2095101 ∧
      intToRune 1112061 = .error (.selfCheck 4) :=
  ⟨by omega, by omega, rfl⟩

/-- C3, amended: the 4-unit form succeeds exactly on
`[2^16 − 2048 − 3, 0x10FFFF − 2048 − 3] = [63485, 1112060]`; above that the
encoder always fails — with the decode self-check panic up to the tier-4
guard 2^21 − 2048 − 3 = 2095101, and with the explicit too-large panic at
or beyond it.  It never silently wraps or truncates. -/
theorem c3_amended (i : Nat) :
    (63485 ≤ i → i ≤ 1112060 →
      intToRune i = .ok (i + 2051) ∧ (encodeRune (i + 2051)).length = 4) ∧
    (1112061 ≤ i → i < 2095101 → intToRune i = .error (.selfCheck 4)) ∧
    (2095101 ≤ i → intToRune i = .error .tooLarge) := by
  refine ⟨fun h1 h2 => ⟨intToRune_tier4 i h1 h2, ?_⟩,
    fun h1 h2 => intToRune_tier4_selfCheckFail i h1 h2,
    fun h1 => intToRune_tooLarge i h1⟩
  rw [encodeRune_four (i + 2051) (by omega) (by omega)]
  simp

theorem c3_amended_witness :
    (intToRune 70000 = .ok 72051 ∧ (encodeRune 72051).length = 4) ∧
      intToRune 1500000 = .error (.selfCheck 4) ∧
      intToRune 3000000 = .error .tooLarge :=
  ⟨(c3_amended 70000).1 (by omega) (by omega),
    (c3_amended 1500000).2.1 (by omega) (by omega),
    (c3_amended 3000000).2.2 (by omega)⟩

end DiffMatchPatch

namespace ZetaObject

/-- Modelled from the spec: the file modes of a ContentEntry
(`regular/executable/symlink/submodule/directory`; the `filemode` package is
not under src/).  `empty` is the zero value carried by the Absent
sentinel. -/
inductive FileMode where
  | empty
  | dir
  | regular
  | executable
  | symlink
  | submodule
deriving DecidableEq, Repr

/-- Modelled from the spec: `Mode.IsFile()` — only regular and executable
entries are file-typed; directory, symlink-as-non-file and submodule are
not (spec §4.2, `Files`). -/
def FileMode.IsFile : FileMode → Bool
  | .regular => true
  | .executable => true
  | _ => false

/-- Modelled from the spec: the owning tree snapshot of a change side.  Only
its backing-store reference `b` is needed by this core (`change.go` passes
`c.To.Tree.b` to `newFile`). -/
structure Tree where
  b : Nat
deriving DecidableEq, Repr

/-- Modelled from the spec: a ContentEntry — name, file-mode, content hash
and byte size (the `TreeEntry` declaration is not under src/).  `Equal`
compares all fields. -/
structure TreeEntry where
  Name : String
  Mode : FileMode
  Hash : Nat
  Size : Nat
deriving DecidableEq, Repr

def TreeEntry.Equal (e o : TreeEntry) : Bool := e == o

/-- ChangeEntry from change.go: full path of the node, parent tree (a Go
pointer, hence `Option`), and the entry itself. -/
structure ChangeEntry where
  Name : String
  Tree : Option Tree
  TreeEntry : TreeEntry
deriving DecidableEq, Repr

/-- Equal from change.go:
`e.Name == o.Name && e.Tree.Equal(o.Tree) && e.TreeEntry.Equal(&o.TreeEntry)`.
Tree equality is modelled from the spec as equality of the (possibly nil)
tree references. -/
def ChangeEntry.Equal (e o : ChangeEntry) : Bool :=
  e.Name == o.Name && e.Tree == o.Tree && e.TreeEntry.Equal o.TreeEntry

/-- The package-level `var empty ChangeEntry`: the Go zero value, used as
the Absent sentinel. -/
def empty : ChangeEntry :=
  { Name := "", Tree := none,
    TreeEntry := { Name := "", Mode := .empty, Hash := 0, Size := 0 } }

/-- Modelled from the spec: `merkletrie.Action` (the merkletrie package is
not under src/) — the three classifications of a change. -/
inductive Action where
  | Insert
  | Delete
  | Modify
deriving DecidableEq, Repr

/-- Change from change.go: a pair of before/after entries. -/
structure Change where
  From : ChangeEntry
  To : ChangeEntry
deriving DecidableEq, Repr

/-- Action from change.go.  The Go error return
(`fmt.Errorf("malformed change: empty from and to")`) is modelled with
`Except.error` of the message. -/
def Change.Action (c : Change) : Except String Action :=
  if c.From.Equal empty && c.To.Equal empty then
    .error "malformed change: empty from and to"
  else if c.From.Equal empty then .ok .Insert
  else if c.To.Equal empty then .ok .Delete
  else .ok .Modify

/-- Modelled from the spec: a FileView — the resolved file of one side
(`newFile` is not under src/; `change.go` passes name, mode, hash, size and
the owning tree's backing reference). -/
structure File where
  Name : String
  Mode : FileMode
  Hash : Nat
  Size : Nat
  b : Option Tree
deriving DecidableEq, Repr

def newFile (name : String) (mode : FileMode) (hash size : Nat) (b : Option Tree) : File :=
  { Name := name, Mode := mode, Hash := hash, Size := size, b := b }

/-- Files from change.go.  The Go function initializes `from`/`to` to nil,
fills them in two sequential blocks, and returns early with
`return nil, nil, nil` (both sides nil, no error) as soon as a resolved
side is not file-typed. -/
def Change.Files (c : Change) : Except String (Option File × Option File) :=
  match c.Action with
  | .error e => .error e
  | .ok action =>
    if action = .Insert ∨ action = .Modify then
      if !c.To.TreeEntry.Mode.IsFile then .ok (none, none)
      else
        let toFile := some (newFile c.To.TreeEntry.Name c.To.TreeEntry.Mode
          c.To.TreeEntry.Hash c.To.TreeEntry.Size c.To.Tree)
        if action = .Delete ∨ action = .Modify then
          if !c.From.TreeEntry.Mode.IsFile then .ok (none, none)
          else
            .ok (some (newFile c.From.TreeEntry.Name c.From.TreeEntry.Mode
              c.From.TreeEntry.Hash c.From.TreeEntry.Size c.From.Tree), toFile)
        else .ok (none, toFile)
    else
      if action = .Delete ∨ action = .Modify then
        if !c.From.TreeEntry.Mode.IsFile then .ok (none, none)
        else
          .ok (some (newFile c.From.TreeEntry.Name c.From.TreeEntry.Mode
            c.From.TreeEntry.Hash c.From.TreeEntry.Size c.From.Tree), none)
      else .ok (none, none)

/-- name from change.go: the effective path — From's path when From is
present, To's path otherwise. -/
def Change.name (c : Change) : String :=
  if !c.From.Equal empty then c.From.Name else c.To.Name

/-- Lexicographic three-way comparison of character sequences by codepoint,
modelling Go's `strings.Compare`.  Go compares byte-wise; comparing UTF-8
strings byte-wise gives the same order as comparing their codepoint
sequences, because UTF-8 preserves codepoint order. -/
def bytesCmp : List Char → List Char → Ordering
  | [], [] => .eq
  | [], _ :: _ => .lt
  | _ :: _, [] => .gt
  | a :: as, b :: bs =>
    if a.toNat < b.toNat then .lt
    else if b.toNat < a.toNat then .gt
    else bytesCmp as bs

/-- Model of Go `strings.Compare`. -/
def stringsCompare (a b : String) : Ordering := bytesCmp a.data b.data

/-- The comparator underlying `Changes.Less` from change.go:
`strings.Compare(c[i].name(), c[j].name()) < 0`. -/
def changeLess (a b : Change) : Prop := stringsCompare a.name b.name = .lt

/-- The non-strict counterpart of `changeLess`
(`strings.Compare(a.name, b.name) <= 0`), used as the sort relation. -/
def changeLE (a b : Change) : Prop := ¬ stringsCompare a.name b.name = .gt

theorem bytesCmp_swap : ∀ a b : List Char, bytesCmp b a = (bytesCmp a b).swap := by
  intro a
  induction a with
  | nil =>
    intro b
    cases b <;> simp [bytesCmp, Ordering.swap]
  | cons x xs ih =>
    intro b
    cases b with
    | nil => simp [bytesCmp, Ordering.swap]
    | cons y ys =>
      simp only [bytesCmp]
      split_ifs <;> first
        | omega
        | exact ih ys
        | simp [Ordering.swap]

theorem bytesCmp_le_trans : ∀ a b c : List Char,
    bytesCmp a b ≠ .gt → bytesCmp b c ≠ .gt → bytesCmp a c ≠ .gt := by
  intro a
  induction a with
  | nil =>
    intro b c _ _
    cases c <;> simp [bytesCmp]
  | cons x xs ih =>
    intro b c h1 h2
    cases b with
    | nil => exact absurd rfl h1
    | cons y ys =>
      cases c with
      | nil => exact absurd rfl h2
      | cons z zs =>
        simp only [bytesCmp] at h1 h2 ⊢
        split_ifs at h1 h2 ⊢ <;> first
          | omega
          | exact ih ys zs h1 h2
          | simp_all

instance : DecidableRel changeLE :=
  fun a b => inferInstanceAs (Decidable (¬ stringsCompare a.name b.name = .gt))

instance : IsTotal Change changeLE := by
  refine ⟨fun a b => ?_⟩
  unfold changeLE stringsCompare
  rw [show bytesCmp b.name.data a.name.data = (bytesCmp a.name.data b.name.data).swap from
    bytesCmp_swap _ _]
  cases h : bytesCmp a.name.data b.name.data <;> simp [Ordering.swap]

instance : IsTrans Change changeLE :=
  ⟨fun a b c => bytesCmp_le_trans a.name.data b.name.data c.name.data⟩

/-- Modelled from the spec: `Sort(changes)` — Go's `sort.Sort` over the
`Len`/`Swap`/`Less` triad of `Changes`; spec §4.3 specifies a stable sort
by effective path, realized here by insertion sort with the `Less`
comparator's non-strict counterpart. -/
def sortChanges (l : List Change) : List Change :=
  List.insertionSort changeLE l

end ZetaObject

namespace ZetaObject

/-- The Bool `Equal` of change.go coincides with structural equality of the
modelled entries. -/
theorem changeEntry_equal_iff (e o : ChangeEntry) : e.Equal o = true ↔ e = o := by
  cases e
  cases o
  simp only [ChangeEntry.Equal, TreeEntry.Equal, Bool.and_eq_true, beq_iff_eq,
    ChangeEntry.mk.injEq]
  tauto

/-- C2: Action of a Change — both sides Absent (the zero-valued `empty`
sentinel) yields the malformed-change error; only From Absent yields
Insert; only To Absent yields Delete; both present yields Modify. -/
theorem c2_action_classification (c : Change) :
    (c.From = empty → c.To = empty →
      c.Action = .error "malformed change: empty from and to") ∧
    (c.From = empty → c.To ≠ empty → c.Action = .ok .Insert) ∧
    (c.From ≠ empty → c.To = empty → c.Action = .ok .Delete) ∧
    (c.From ≠ empty → c.To ≠ empty → c.Action = .ok .Modify) := by
  refine ⟨fun hf ht => ?_, fun hf ht => ?_, fun hf ht => ?_, fun hf ht => ?_⟩
  · simp [Change.Action, (changeEntry_equal_iff _ _).mpr hf,
      (changeEntry_equal_iff _ _).mpr ht]
  · have ht2 : ¬ c.To.Equal empty = true := fun hx => ht ((changeEntry_equal_iff _ _).mp hx)
    simp [Change.Action, (changeEntry_equal_iff _ _).mpr hf, ht2]
  · have hf2 : ¬ c.From.Equal empty = true := fun hx => hf ((changeEntry_equal_iff _ _).mp hx)
    simp [Change.Action, (changeEntry_equal_iff _ _).mpr ht, hf2]
  · have hf2 : ¬ c.From.Equal empty = true := fun hx => hf ((changeEntry_equal_iff _ _).mp hx)
    have ht2 : ¬ c.To.Equal empty = true := fun hx => ht ((changeEntry_equal_iff _ _).mp hx)
    simp [Change.Action, hf2, ht2]

/-- A present change side that is a regular file, used in concrete
examples. -/
def fileEntry (p : String) : ChangeEntry :=
  { Name := p, Tree := some { b := 0 },
    TreeEntry := { Name := p, Mode := .regular, Hash := 1, Size := 1 } }

/-- A present change side with submodule mode (not file-typed), used in
concrete examples. -/
def submoduleEntry (p : String) : ChangeEntry :=
  { Name := p, Tree := some { b := 0 },
    TreeEntry := { Name := p, Mode := .submodule, Hash := 2, Size := 0 } }

theorem c2_action_classification_witness :
    Change.Action { From := empty, To := empty } =
      .error "malformed change: empty from and to" ∧
    Change.Action { From := empty, To := fileEntry "a" } = .ok .Insert ∧
    Change.Action { From := fileEntry "a", To := empty } = .ok .Delete ∧
    Change.Action { From := fileEntry "a", To := fileEntry "b" } = .ok .Modify :=
  ⟨(c2_action_classification { From := empty, To := empty }).1 rfl rfl,
    (c2_action_classification { From := empty, To := fileEntry "a" }).2.1 rfl (by decide),
    (c2_action_classification { From := fileEntry "a", To := empty }).2.2.1 (by decide) rfl,
    (c2_action_classification { From := fileEntry "a", To := fileEntry "b" }).2.2.2
      (by decide) (by decide)⟩

/-- C4, counterexample: a Modify whose From side is a regular file but
whose To side is a submodule.  The claim says the From side's file view is
still resolved and returned; the code instead returns early with both
sides nil (`return nil, nil, nil`) as soon as it sees the non-file To
side, so no file view is returned at all. -/
theorem c4_counterexample :
    Change.Action { From := fileEntry "a", To := submoduleEntry "a" } = .ok .Modify ∧
    FileMode.IsFile (fileEntry "a").TreeEntry.Mode = true ∧
    Change.Files { From := fileEntry "a", To := submoduleEntry "a" } = .ok (none, none) := by
  refine ⟨rfl, rfl, rfl⟩

/-- Statement of the amended C4 behavior: the pair of file views Files
yields for each successful action. -/
def filesSpec (c : Change) : Action → Option File × Option File
      | .Insert =>
        if c.To.TreeEntry.Mode.IsFile then
          (none, some (newFile c.To.TreeEntry.Name c.To.TreeEntry.Mode
            c.To.TreeEntry.Hash c.To.TreeEntry.Size c.To.Tree))
        else (none, none)
      | .Delete =>
        if c.From.TreeEntry.Mode.IsFile then
          (some (newFile c.From.TreeEntry.Name c.From.TreeEntry.Mode
            c.From.TreeEntry.Hash c.From.TreeEntry.Size c.From.Tree), none)
        else (none, none)
      | .Modify =>
        if c.From.TreeEntry.Mode.IsFile && c.To.TreeEntry.Mode.IsFile then
          (some (newFile c.From.TreeEntry.Name c.From.TreeEntry.Mode
            c.From.TreeEntry.Hash c.From.TreeEntry.Size c.From.Tree),
            some (newFile c.To.TreeEntry.Name c.To.TreeEntry.Mode
              c.To.TreeEntry.Hash c.To.TreeEntry.Size c.To.Tree))
        else (none, none)

/-- C4, amended: when Action succeeds, Files never returns an error; for an
Insert (resp. Delete) the single resolved side yields its file view
exactly when its mode is file-typed, and `none` otherwise; for a Modify,
file views are returned for both sides exactly when both modes are
file-typed — if either resolved side is not file-typed the function
returns `(none, none)` for both sides, without error. -/
theorem c4_files_amended (c : Change) (a : Action) (h : c.Action = .ok a) :
    c.Files = .ok (filesSpec c a) := by
  unfold Change.Files filesSpec
  rw [h]
  cases a
  · cases hT : c.To.TreeEntry.Mode.IsFile <;> simp [hT]
  · cases hF : c.From.TreeEntry.Mode.IsFile <;> simp [hF]
  · cases hF : c.From.TreeEntry.Mode.IsFile <;>
      cases hT : c.To.TreeEntry.Mode.IsFile <;> simp [hF, hT]

theorem c4_files_amended_witness :
    Change.Files { From := fileEntry "a", To := submoduleEntry "a" } = .ok (none, none) :=
  (c4_files_amended { From := fileEntry "a", To := submoduleEntry "a" } .Modify rfl).trans
    rfl

/-- A change recording a deletion at path `p` (From present, To absent):
its effective path is From's. -/
def deletionAt (p : String) : Change := { From := fileEntry p, To := empty }

/-- A change recording an insertion at path `p` (From absent, To present):
its effective path is To's. -/
def insertionAt (p : String) : Change := { From := empty, To := fileEntry p }

/-- C7: sorting a ChangeSet orders it lexicographically by effective path
(From's path if present, else To's): the result is always a permutation of
the input sorted under the comparator of `Changes.Less`, and in particular
changes at paths `["b/x", "a/y", "a/a"]` sort to `["a/a", "a/y", "b/x"]`. -/
theorem c7_changeset_ordering :
    (∀ l : List Change, (sortChanges l).Perm l ∧ List.Sorted changeLE (sortChanges l)) ∧
    (sortChanges [deletionAt "b/x", insertionAt "a/y", deletionAt "a/a"]).map Change.name =
      ["a/a", "a/y", "b/x"] :=
  ⟨fun l => ⟨List.perm_insertionSort changeLE l, List.sorted_insertionSort changeLE l⟩,
    by decide⟩

end ZetaObject

namespace Pktline

def lenSize : Nat := 4

/-- The Go sentinel `ErrInvalidPktLen = errors.New("invalid pkt-len found")`. -/
def ErrInvalidPktLen : String := "invalid pkt-len found"

/-- The lookup in `reverseHexTable` from change.go (pktline package): hex
digits 0-9, A-F and a-f map to their values, every other byte maps to
0xFF. -/
def hexval (b : Nat) : Nat :=
  if 48 ≤ b ∧ b ≤ 57 then b - 48
  else if 65 ≤ b ∧ b ≤ 70 then b - 55
  else if 97 ≤ b ∧ b ≤ 102 then b - 87
  else 0xFF

/-- hexDecode from the pktline package: decodes the four header bytes as a
hexadecimal number, rejecting any byte whose table value exceeds 0xF. -/
def hexDecode (l0 l1 l2 l3 : Nat) : Except String Nat :=
  let a := hexval l0
  let b := hexval l1
  let c := hexval l2
  let d := hexval l3
  if a > 0xF ∨ b > 0xF ∨ c > 0xF ∨ d > 0xF then .error ErrInvalidPktLen
  else .ok ((a <<< 12) ||| (b <<< 8) ||| (c <<< 4) ||| d)

/-- Scanner.readPayloadLen from the pktline package, modelled on the four
header bytes already read (the `io.ReadFull` that obtains them is I/O and
out of scope).  `OversizePayloadMax` is declared elsewhere in the pktline
package (not under src/); the spec only says the maximum payload size is
enforced strictly, so it is taken as a parameter here. -/
def readPayloadLen (oversizePayloadMax : Nat) (l0 l1 l2 l3 : Nat) : Except String Nat :=
  match hexDecode l0 l1 l2 l3 with
  | .error e => .error e
  | .ok n =>
    if n = 0 then .ok 0
    else if n ≤ lenSize then .error ErrInvalidPktLen
    else if n > oversizePayloadMax + lenSize then .error ErrInvalidPktLen
    else .ok (n - lenSize)

theorem hexMul256 (x y : Nat) (h : y < 256) : x * 256 ||| y = x * 256 + y := by
  have h2 := DiffMatchPatch.lor_eq_add 8 x y (by omega)
  norm_num at h2
  exact h2

theorem hexMul16 (x y : Nat) (h : y < 16) : x * 16 ||| y = x * 16 + y := by
  have h2 := DiffMatchPatch.lor_eq_add 4 x y (by omega)
  norm_num at h2
  exact h2

theorem hex_compose (a b c d : Nat) (ha : a ≤ 15) (hb : b ≤ 15) (hc : c ≤ 15) (hd : d ≤ 15) :
    (a <<< 12) ||| (b <<< 8) ||| (c <<< 4) ||| d = a * 4096 + b * 256 + c * 16 + d := by
  rw [Nat.shiftLeft_eq, Nat.shiftLeft_eq, Nat.shiftLeft_eq]
  norm_num
  rw [DiffMatchPatch.lorMul4096 a (b * 256) (by omega),
    show a * 4096 + b * 256 = (a * 16 + b) * 256 by ring,
    hexMul256 _ (c * 16) (by omega),
    show (a * 16 + b) * 256 + c * 16 = ((a * 16 + b) * 16 + c) * 16 by ring,
    hexMul16 _ d (by omega)]

/-- C8: behavior of readPayloadLen on every 4-byte header.  When all four
bytes are hex digits the decoded total length n is their base-16 value and
the result is: flush (payload 0, no error) for n = 0; ErrInvalidPktLen for
0 < n ≤ 4 and for n > OversizePayloadMax + 4; payload length n − 4
otherwise (the 4-digit header counts toward the transmitted total).  A
header containing any non-hex byte (table value above 0xF) yields
ErrInvalidPktLen. -/
theorem c8_readPayloadLen (m l0 l1 l2 l3 : Nat) :
    (∀ n, hexDecode l0 l1 l2 l3 = .ok n →
      n = hexval l0 * 4096 + hexval l1 * 256 + hexval l2 * 16 + hexval l3 ∧
      readPayloadLen m l0 l1 l2 l3 =
        if n = 0 then .ok 0
        else if n ≤ 4 then .error ErrInvalidPktLen
        else if n > m + 4 then .error ErrInvalidPktLen
        else .ok (n - 4)) ∧
    ((hexval l0 > 0xF ∨ hexval l1 > 0xF ∨ hexval l2 > 0xF ∨ hexval l3 > 0xF) →
      readPayloadLen m l0 l1 l2 l3 = .error ErrInvalidPktLen) := by
  constructor
  · intro n h
    constructor
    · simp only [hexDecode] at h
      by_cases hx : hexval l0 > 0xF ∨ hexval l1 > 0xF ∨ hexval l2 > 0xF ∨ hexval l3 > 0xF
      · rw [if_pos hx] at h
        exact absurd h (by simp)
      · rw [if_neg hx] at h
        simp only [Except.ok.injEq] at h
        rw [← h, hex_compose _ _ _ _ (by omega) (by omega) (by omega) (by omega)]
    · simp only [readPayloadLen, h, lenSize]
  · intro h
    simp only [readPayloadLen, hexDecode, if_pos h]

theorem c8_readPayloadLen_witness :
    readPayloadLen 65516 48 48 48 56 = .ok 4 ∧
    readPayloadLen 65516 48 48 48 48 = .ok 0 ∧
    readPayloadLen 65516 48 48 48 50 = .error ErrInvalidPktLen ∧
    readPayloadLen 65516 71 48 48 48 = .error ErrInvalidPktLen :=
  ⟨(((c8_readPayloadLen 65516 48 48 48 56).1 8 rfl).2).trans rfl,
    (((c8_readPayloadLen 65516 48 48 48 48).1 0 rfl).2).trans rfl,
    (((c8_readPayloadLen 65516 48 48 48 50).1 2 rfl).2).trans rfl,
    (c8_readPayloadLen 65516 71 48 48 48).2 (Or.inl (by decide))⟩

end Pktline

namespace Strengthen

/-- The loop of StrSplitSkipEmpty from pkg/strengthen.  The Go code scans
byte-by-byte, tracking the start index `first` of the current segment;
here the pending segment `cur = s[first:i]` is carried explicitly.  On a
separator the pending segment is appended when non-empty (`first != i`)
and reset; after the loop the pending tail is appended when non-empty
(`first < len(s)`). -/
def strSplitLoop (sep : Nat) : List Nat → List Nat → List (List Nat)
  | cur, [] => if cur.isEmpty then [] else [cur]
  | cur, b :: rest =>
    if b = sep then
      if cur.isEmpty then strSplitLoop sep [] rest
      else cur :: strSplitLoop sep [] rest
    else strSplitLoop sep (cur ++ [b]) rest

/-- StrSplitSkipEmpty from pkg/strengthen.  Go strings are modelled as
byte lists; `suggestcap` only seeds the Go slice capacity and cannot affect
the result. -/
def StrSplitSkipEmpty (s : List Nat) (sep : Nat) (suggestcap : Nat) : List (List Nat) :=
  strSplitLoop sep [] s

/-- The claim's specification of the result: the maximal non-empty
`sep`-free segments of `s`, in their original order — separators are
skipped, and each emitted segment is a maximal run of non-separator
bytes. -/
def maximalSegs (sep : Nat) : List Nat → List (List Nat)
  | [] => []
  | b :: rest =>
    if b = sep then maximalSegs sep rest
    else (b :: rest.takeWhile (fun x => x ≠ sep)) ::
      maximalSegs sep (rest.dropWhile (fun x => x ≠ sep))
termination_by s => s.length
decreasing_by
  · simp
  · simp
    have h := (List.dropWhile_sublist (l := rest) (fun x : Nat => !decide (x = sep))).length_le
    omega

theorem strSplitLoop_eq (sep : Nat) : ∀ (s cur : List Nat),
    strSplitLoop sep cur s =
      if cur.isEmpty then maximalSegs sep s
      else (cur ++ s.takeWhile (fun x => x ≠ sep)) ::
        maximalSegs sep (s.dropWhile (fun x => x ≠ sep)) := by
  intro s
  induction s with
  | nil =>
    intro cur
    cases cur <;> simp [strSplitLoop, maximalSegs]
  | cons b rest ih =>
    intro cur
    by_cases hb : b = sep
    · rw [strSplitLoop, if_pos hb]
      rw [show maximalSegs sep (b :: rest) = maximalSegs sep rest by
        rw [maximalSegs, if_pos hb]]
      rw [show (b :: rest).takeWhile (fun x => x ≠ sep) = [] by
        simp [List.takeWhile_cons, hb]]
      rw [show (b :: rest).dropWhile (fun x => x ≠ sep) = b :: rest by
        simp [List.dropWhile_cons, hb]]
      rw [show maximalSegs sep (b :: rest) = maximalSegs sep rest by
        rw [maximalSegs, if_pos hb]]
      cases cur with
      | nil => simp [ih]
      | cons c cs => simp [ih]
    · rw [strSplitLoop, if_neg hb, ih]
      rw [show (b :: rest).takeWhile (fun x => x ≠ sep) =
          b :: rest.takeWhile (fun x => x ≠ sep) by simp [List.takeWhile_cons, hb]]
      rw [show (b :: rest).dropWhile (fun x => x ≠ sep) =
          rest.dropWhile (fun x => x ≠ sep) by simp [List.dropWhile_cons, hb]]
      rw [show maximalSegs sep (b :: rest) =
          (b :: rest.takeWhile (fun x => x ≠ sep)) ::
            maximalSegs sep (rest.dropWhile (fun x => x ≠ sep)) by
        rw [maximalSegs, if_neg hb]]
      cases cur with
      | nil => simp
      | cons c cs => simp

theorem maximalSegs_mem (sep : Nat) :
    ∀ (n : Nat) (s : List Nat), s.length ≤ n →
      ∀ t ∈ maximalSegs sep s, t ≠ [] ∧ sep ∉ t := by
  intro n
  induction n with
  | zero =>
    intro s hs t ht
    have hnil : s = [] := by
      cases s with
      | nil => rfl
      | cons a l => simp at hs
    subst hnil
    simp [maximalSegs] at ht
  | succ n ih =>
    intro s hs t ht
    cases s with
    | nil => simp [maximalSegs] at ht
    | cons b rest =>
      rw [maximalSegs] at ht
      by_cases hb : b = sep
      · rw [if_pos hb] at ht
        exact ih rest (by simp at hs; omega) t ht
      · rw [if_neg hb] at ht
        rcases List.mem_cons.mp ht with h | h
        · subst h
          refine ⟨by simp, ?_⟩
          intro hmem
          rcases List.mem_cons.mp hmem with h2 | h2
          · exact hb h2.symm
          · have := List.mem_takeWhile_imp h2
            simp at this
        · refine ih (rest.dropWhile (fun x => x ≠ sep)) ?_ t h
          simp at hs ⊢
          have h3 := (List.dropWhile_sublist (l := rest)
            (fun x : Nat => !decide (x = sep))).length_le
          omega

/-- C10: StrSplitSkipEmpty returns exactly the maximal non-empty sep-free
segments of the input in their original order, independent of the
suggested capacity; in particular no element of the result is empty and no
element contains the separator, regardless of leading, trailing or
repeated separators. -/
theorem c10_split_skip_empty (s : List Nat) (sep suggestcap : Nat) :
    StrSplitSkipEmpty s sep suggestcap = maximalSegs sep s ∧
    ∀ t ∈ StrSplitSkipEmpty s sep suggestcap, t ≠ [] ∧ sep ∉ t := by
  have he : StrSplitSkipEmpty s sep suggestcap = maximalSegs sep s := by
    unfold StrSplitSkipEmpty
    rw [strSplitLoop_eq]
    simp
  refine ⟨he, ?_⟩
  rw [he]
  exact maximalSegs_mem sep s.length s (le_refl _)

end Strengthen

namespace Strengthen

theorem c10_split_skip_empty_witness :
    StrSplitSkipEmpty [47, 97, 47, 47, 98, 99, 47] 47 4 =
      maximalSegs 47 [47, 97, 47, 47, 98, 99, 47] ∧
    ([97] ≠ [] ∧ 47 ∉ [97]) :=
  ⟨(c10_split_skip_empty [47, 97, 47, 47, 98, 99, 47] 47 4).1,
    (c10_split_skip_empty [47, 97] 47 1).2 [97] (by decide)⟩

end Strengthen
